import Mathlib

/-!
Verification development for an integer linear programming solver built on a
two-phase tableau simplex method (LP engine) wrapped in best-first
branch-and-bound (IP engine).

The C++ source stores all numbers as IEEE doubles; here the numeric carrier is
`ℚ`, which models the source's arithmetic exactly on the operations used
(`+ - * /`, comparisons, `floor`, `round`) up to floating-point rounding,
which the source itself guards against with epsilon predicates (class `FOP`).
IEEE special values `±inf`/`NaN` (used by the source for extrema, bounds and
statuses) are modelled by the explicit type `ExtQ` below.
-/

/- Allow the elaborator to evaluate concrete rational arithmetic when closing
goals by `decide` (these operations are `@[irreducible]` upstream purely to
keep `simp` from unfolding them; the kernel itself ignores reducibility). -/
attribute [local semireducible] Rat.add Rat.mul Rat.sub Rat.inv

/-- Extended rationals with NaN: models the IEEE double special values the
source manipulates (`FP64_INF`, `FP64_NAN`) together with finite values. -/
inductive ExtQ where
  | fin (q : ℚ)
  | inf
  | ninf
  | nan
deriving DecidableEq, Repr

namespace ExtQ

/-- IEEE `<` on extended values: any comparison with NaN is false. -/
def blt : ExtQ → ExtQ → Bool
  | nan, _ => false
  | _, nan => false
  | ninf, ninf => false
  | ninf, _ => true
  | _, ninf => false
  | fin a, fin b => decide (a < b)
  | fin _, inf => true
  | inf, _ => false

/-- IEEE negation: `-(±inf)` swaps sign, `-NaN` stays NaN. -/
def neg : ExtQ → ExtQ
  | fin q => fin (-q)
  | inf => ninf
  | ninf => inf
  | nan => nan

end ExtQ

/- Floating-point comparison predicates of the source (class `FOP`),
with `EPS = 1e-4`. -/
namespace FOP

def EPS : ℚ := 1 / 10 ^ 4

/-- `FOP::isInt`: `abs(x - round(x)) <= EPS`. -/
def isInt (x : ℚ) : Bool := decide (|x - (round x : ℚ)| ≤ EPS)

/-- `FOP::isZero`: `abs(x) <= EPS`. -/
def isZero (x : ℚ) : Bool := decide (|x| ≤ EPS)

/-- `FOP::isPos`: `x >= EPS`. -/
def isPos (x : ℚ) : Bool := decide (EPS ≤ x)

end FOP

/-- Constraint relations: `<=` (LEQ), `=` (EQ), `>=` (GEQ). -/
inductive Relation where
  | LEQ
  | EQ
  | GEQ
deriving DecidableEq, Repr

/-- `Linearform`: a sparse map from variable index to coefficient. The C++
uses an `unordered_map`; we use an association list with unique keys, in which
`add` accumulates coefficients exactly as the C++ `Linearform::add` does. -/
structure Linearform where
  terms : List (ℕ × ℚ) := []
deriving DecidableEq, Repr

namespace Linearform

/-- `Linearform::add`: accumulate onto an existing term or create one. -/
def add (f : Linearform) (coef : ℚ) (varIndex : ℕ) : Linearform :=
  if f.terms.any (fun p => p.1 == varIndex) then
    ⟨f.terms.map (fun p => if p.1 == varIndex then (p.1, p.2 + coef) else p)⟩
  else ⟨f.terms ++ [(varIndex, coef)]⟩

/-- `Linearform::negate`: negate every coefficient. -/
def negate (f : Linearform) : Linearform :=
  ⟨f.terms.map (fun p => (p.1, -p.2))⟩

end Linearform

/-- `Constraint`: a linear form, a relation and a right-hand constant. -/
structure Constraint where
  terms : List (ℕ × ℚ) := []
  relation : Relation := .EQ
  rightConst : ℚ := 0
deriving DecidableEq, Repr

namespace Constraint

/-- `Constraint::add`, accumulating into the constraint's linear form. -/
def add (c : Constraint) (coef : ℚ) (varIndex : ℕ) : Constraint :=
  { c with terms := (Linearform.add ⟨c.terms⟩ coef varIndex).terms }

/-- `Constraint::leq`. -/
def leq (c : Constraint) (r : ℚ) : Constraint := { c with relation := .LEQ, rightConst := r }

/-- `Constraint::eq`. -/
def eq (c : Constraint) (r : ℚ) : Constraint := { c with relation := .EQ, rightConst := r }

/-- `Constraint::geq`. -/
def geq (c : Constraint) (r : ℚ) : Constraint := { c with relation := .GEQ, rightConst := r }

/-- `Constraint::stdOfNegativeRightConst`: if the right constant is negative,
negate both sides and flip `LEQ`/`GEQ`. -/
def stdOfNegativeRightConst (c : Constraint) : Constraint :=
  if 0 ≤ c.rightConst then c
  else
    { terms := (Linearform.negate ⟨c.terms⟩).terms
      relation := match c.relation with
        | .LEQ => .GEQ
        | .GEQ => .LEQ
        | .EQ => .EQ
      rightConst := -c.rightConst }

/-- `Constraint::haveSlackVar`: only `>=` and `<=` produce a slack variable. -/
def haveSlackVar (c : Constraint) : Bool := c.relation ≠ Relation.EQ

/-- `Constraint::getSlackVarCoef`: `+1` for `<=`, `-1` for `>=`, `0` for `=`. -/
def getSlackVarCoef (c : Constraint) : ℚ :=
  match c.relation with
  | .LEQ => 1
  | .GEQ => -1
  | .EQ => 0

/-- `Constraint::haveArtificialVar`: only `=` and `>=` need an artificial. -/
def haveArtificialVar (c : Constraint) : Bool := c.relation ≠ Relation.LEQ

end Constraint

/-- The dense simplex tableau: row 0 is the head (reduced-cost) row,
rows `1..rows-1` are the constraints; the flattened array is indexed by
`cols * i + j`; `baseVarIndexs[i]` is the basic column of row `i`
(`-1` marks an artificial basis). -/
structure Tableau where
  rows : ℕ
  cols : ℕ
  arr : List ℚ
  baseVarIndexs : List ℤ
deriving DecidableEq, Repr

namespace Tableau

/-- Element access `A(i,j)` (out-of-range reads yield 0; the C++ never reads
out of range on the paths modelled here). -/
def get (t : Tableau) (i j : ℕ) : ℚ := t.arr.getD (t.cols * i + j) 0

/-- Element write `A(i,j) = v`. -/
def setEntry (t : Tableau) (i j : ℕ) (v : ℚ) : Tableau :=
  { t with arr := t.arr.set (t.cols * i + j) v }

/-- `Tableau::init`: zero-filled array, basis indices all 0. -/
def init (rows cols : ℕ) : Tableau :=
  { rows := rows, cols := cols
    arr := List.replicate (rows * cols) 0
    baseVarIndexs := List.replicate rows 0 }

/-- `Tableau::scaleRow`: divide row `i` by `s`. -/
def scaleRow (t : Tableau) (i : ℕ) (s : ℚ) : Tableau :=
  (List.range t.cols).foldl (fun t' k => t'.setEntry i k (t'.get i k / s)) t

/-- `Tableau::addRowToRow`: add row `i` times `s` onto row `j`. -/
def addRowToRow (t : Tableau) (i j : ℕ) (s : ℚ) : Tableau :=
  (List.range t.cols).foldl (fun t' k => t'.setEntry j k (t'.get j k + t'.get i k * s)) t

/-- `Tableau::elimination` (scalar path): use `A(i,j)` to eliminate column `j`
from every other row, explicitly zero those entries, then scale row `i` so
that `A(i,j) = 1`. -/
def elimination (t : Tableau) (i j : ℕ) : Tableau :=
  let aij := t.get i j
  let t1 := (List.range t.rows).foldl
    (fun t' k => if k ≠ i then t'.addRowToRow i k (-(t'.get k j) / aij) else t') t
  let t2 := (List.range t1.rows).foldl
    (fun t' k => if k ≠ i then t'.setEntry k j 0 else t') t1
  t2.scaleRow i aij

/-- Update `baseVarIndexs[i] = j` after a pivot. -/
def setBase (t : Tableau) (i : ℕ) (j : ℤ) : Tableau :=
  { t with baseVarIndexs := t.baseVarIndexs.set i j }

/-- Basic column of row `i`. -/
def base (t : Tableau) (i : ℕ) : ℤ := t.baseVarIndexs.getD i 0

end Tableau

/-- LP solution status (`LP::Type`). -/
inductive LPType where
  | BOUNDED
  | UNBOUNDED
  | INFEASIBLE
deriving DecidableEq, Repr

/-- The externally observable fields of an `LP` object after construction.
`solutionType`/`extremum` are `Option`s because on one (unreachable) path the
C++ constructor leaves them unassigned; `none` models "never assigned". -/
structure LPResult where
  solutionType : Option LPType := none
  solution : List ℚ := []
  unboundedDirection : List ℚ := []
  extremum : Option ExtQ := none
deriving DecidableEq, Repr

/-- Per-variable range `[lo, hi]`; `none` as upper bound models `FP64_INF`
(the only non-finite bound the solver ever constructs). -/
abbrev VarRange := ℚ × Option ℚ

namespace LP

/-- Loop body of `LP::findNewBaseVarIndex`: scan columns `j, j+1, ...`
(`count` of them) for the first with `FOP::isPos(A(0,j))`. -/
def findFirstPosCol (t : Tableau) : ℕ → ℕ → Option ℕ
  | _, 0 => none
  | j, count + 1 =>
    if FOP.isPos (t.get 0 j) then some j else findFirstPosCol t (j + 1) count

/-- `LP::findNewBaseVarIndex`: the first column `j ∈ [0, cols-2]` with
`FOP::isPos(A(0,j))`; `none` models the C++ return value `-1`. -/
def findNewBaseVarIndex (t : Tableau) : Option ℕ :=
  findFirstPosCol t 0 (t.cols - 1)

/-- Loop body of `LP::findMinPosRatioRowIndex`: scan rows `i, i+1, ...`
(`count` of them) keeping the row with the smallest ratio
`A(i, cols-1) / A(i, j)` among rows with `FOP::isPos(A(i,j))`. -/
def minRatioScan (t : Tableau) (j : ℕ) : ℕ → ℕ → ℚ → Option ℕ → Option ℕ
  | _, 0, _, best => best
  | i, count + 1, minRatio, best =>
    if FOP.isPos (t.get i j) then
      let ratio := t.get i (t.cols - 1) / t.get i j
      if ratio < minRatio then minRatioScan t j (i + 1) count ratio (some i)
      else minRatioScan t j (i + 1) count minRatio best
    else minRatioScan t j (i + 1) count minRatio best

/-- The initial bound `1e300` of `LP::findMinPosRatioRowIndex` (written as
an explicit numeral so that it evaluates). -/
def minPosRatioInit : ℚ := 1000000000000000000000000000000000000000000000000000000000000000000000000000000000000000000000000000000000000000000000000000000000000000000000000000000000000000000000000000000000000000000000000000000000000000000000000000000000000000000000000000000000000000000000000000000000000000000000000000000000000

/-- `LP::findMinPosRatioRowIndex`: rows `1..rows-1`, initial bound `1e300`;
`none` models the C++ return value `-1`. -/
def findMinPosRatioRowIndex (t : Tableau) (j : ℕ) : Option ℕ :=
  minRatioScan t j 1 (t.rows - 1) minPosRatioInit none

/-- `LP::isTableauHaveArtificialVar`: some row `i ≥ 1` has basis index `-1`. -/
def isTableauHaveArtificialVar (t : Tableau) : Bool :=
  ((List.range t.rows).drop 1).any (fun i => t.base i == -1)

/-- Outcome of `LP::runMinSimplexMethod` on a tableau.  `finished` is the
normal loop exit (no entering column), `unboundedAt` records the tableau and
entering column at the moment `handleUnbound` fires, `fuelOut` means the
modelled iteration budget was exhausted (the C++ loop is unbounded). -/
inductive SimplexOutcome where
  | finished (t : Tableau)
  | unboundedAt (t : Tableau) (j : ℕ)
  | fuelOut
deriving DecidableEq, Repr

/-- `LP::runMinSimplexMethod`'s pivot loop, with explicit fuel. -/
def runMinSimplex : ℕ → Tableau → SimplexOutcome
  | 0, _ => .fuelOut
  | fuel + 1, t =>
    match findNewBaseVarIndex t with
    | none => .finished t
    | some j =>
      match findMinPosRatioRowIndex t j with
      | none => .unboundedAt t j
      | some i => runMinSimplex fuel ((t.elimination i j).setBase i (j : ℤ))

/-- Common shape of the extraction loops of `LP::handleUnbound` and
`LP::handleBound`: starting from a zero vector of length `varCount`, write
`val i` at position `base i` for every constraint row `i` whose basic
variable is a general variable (`0 ≤ base < varCount`). -/
def baseUpdateGo (t : Tableau) (varCount : ℕ) (val : ℕ → ℚ) :
    List ℕ → List ℚ → List ℚ
  | [], l => l
  | i :: is, l =>
    baseUpdateGo t varCount val is
      (if 0 ≤ t.base i ∧ t.base i < (varCount : ℤ) then l.set (t.base i).toNat (val i) else l)

def baseUpdate (t : Tableau) (varCount : ℕ) (val : ℕ → ℚ) : List ℚ :=
  baseUpdateGo t varCount val ((List.range t.rows).drop 1) (List.replicate varCount 0)

/-- Solution vector extracted from the tableau in `LP::handleUnbound` and
`LP::handleBound`: entry `v` is row `i`'s right constant whenever row `i`'s
basic variable is the general variable `v`, 0 otherwise. -/
def extractSolution (t : Tableau) (varCount : ℕ) : List ℚ :=
  baseUpdate t varCount (fun i => t.get i (t.cols - 1))

/-- Direction vector built in `LP::handleUnbound`: entry `v` is
`A(i, j) * (isMin ? 1 : -1)` for rows whose basic variable is the general
variable `v`, 0 otherwise. -/
def unboundedDirectionVec (isMin : Bool) (t : Tableau) (varCount : ℕ) (j : ℕ) : List ℚ :=
  baseUpdate t varCount (fun i => t.get i j * (if isMin then 1 else -1))

/-- `LP::handleUnbound`: status UNBOUNDED, current vertex as solution, the
direction ray, extremum `-inf` for min and `+inf` for max. -/
def handleUnbound (isMin : Bool) (varCount : ℕ) (t : Tableau) (j : ℕ) : LPResult :=
  { solutionType := some .UNBOUNDED
    solution := extractSolution t varCount
    unboundedDirection := unboundedDirectionVec isMin t varCount j
    extremum := some (if isMin then .ninf else .inf) }

/-- `LP::handleBound`: status BOUNDED, vertex solution, extremum
`A(0, cols-1) * (isMin ? 1 : -1)`. -/
def handleBound (isMin : Bool) (varCount : ℕ) (t : Tableau) : LPResult :=
  { solutionType := some .BOUNDED
    solution := extractSolution t varCount
    unboundedDirection := []
    extremum := some (.fin (t.get 0 (t.cols - 1) * (if isMin then 1 else -1))) }

/-- Phase-1 preprocessing in `LP::checkInfeasible`: add every row with an
artificial basis onto row 0 with scale `+1`. -/
def addArtificialRowsToHead (t : Tableau) : Tableau :=
  ((List.range t.rows).drop 1).foldl
    (fun t' i => if t'.base i = -1 then t'.addRowToRow i 0 1 else t') t

/-- End of `LP::checkInfeasible`: zero out row 0 (clean numerical residue). -/
def zeroHead (t : Tableau) : Tableau :=
  (List.range t.cols).foldl (fun t' j => t'.setEntry 0 j 0) t

/-- `LP::insertObjFuncToTableau`: write `coef * (isMin ? -1 : 1)` into row 0
for every objective term. -/
def insertObjFuncToTableau (isMin : Bool) (objFunc : Linearform) (t : Tableau) : Tableau :=
  objFunc.terms.foldl
    (fun t' p => t'.setEntry 0 p.1 (p.2 * (if isMin then -1 else 1))) t

/-- `LP::handleNonZeroHead`: for every constraint row, if row 0 is not
`FOP::isZero` at that row's basic column, eliminate it by a row operation.
(The basis indices are nonnegative whenever this runs, so `Int.toNat` is
faithful to the C++ `uint32_t` read.) -/
def handleNonZeroHead (t : Tableau) : Tableau :=
  ((List.range t.rows).drop 1).foldl
    (fun t' i =>
      let b := (t'.base i).toNat
      if ¬ FOP.isZero (t'.get 0 b) then t'.addRowToRow i 0 (-(t'.get 0 b)) else t')
    t

/-- The phase-2 driver run and classification of the LP constructor
(`LP::LP`, else-branch): run the pivot loop, then `handleUnbound` or
`handleBound`.  On the C++-unreachable path where the driver finishes with an
artificial still basic, the constructor assigns no fields; we return the
all-default record. -/
def runSimplexAndClassify (fuel : ℕ) (isMin : Bool) (varCount : ℕ)
    (t : Tableau) : Option LPResult :=
  match runMinSimplex fuel t with
  | .fuelOut => none
  | .unboundedAt t' j => some (handleUnbound isMin varCount t' j)
  | .finished t' =>
    if isTableauHaveArtificialVar t' then some {}
    else some (handleBound isMin varCount t')

/-- Phase-2 of the LP constructor: install the objective in row 0, clear it
on basic columns, then run the driver and classify. -/
def phase2 (fuel : ℕ) (isMin : Bool) (objFunc : Linearform) (varCount : ℕ)
    (t : Tableau) : Option LPResult :=
  runSimplexAndClassify fuel isMin varCount
    (handleNonZeroHead (insertObjFuncToTableau isMin objFunc t))

/-- The LP constructor from the initial tableau onwards: phase-1 feasibility
check (`LP::checkInfeasible`), then phase-2.  When phase 1 fails, the C++
overwrites `solutionType` with INFEASIBLE and `extremum` with NaN on top of
whatever `handleUnbound` may have written. -/
def solveFromTableau (fuel : ℕ) (isMin : Bool) (objFunc : Linearform) (varCount : ℕ)
    (t0 : Tableau) : Option LPResult :=
  if isTableauHaveArtificialVar t0 then
    match runMinSimplex fuel (addArtificialRowsToHead t0) with
    | .fuelOut => none
    | .unboundedAt t' j =>
      some { handleUnbound isMin varCount t' j with
              solutionType := some .INFEASIBLE, extremum := some .nan }
    | .finished t' =>
      if isTableauHaveArtificialVar t' then
        some { solutionType := some .INFEASIBLE, extremum := some .nan }
      else phase2 fuel isMin objFunc varCount (zeroHead t')
  else phase2 fuel isMin objFunc varCount t0

/-- Conversion of variable ranges into constraints in the LP constructor:
`x_i ≥ lo` when `lo > 0`, `x_i ≤ hi` when `hi` is finite, in variable order. -/
def varRangeMultiCon (varRange : List VarRange) : List Constraint :=
  (varRange.enum).foldl
    (fun acc p =>
      let i := p.1
      let lo := p.2.1
      acc
        ++ (if 0 < lo then [{ terms := [(i, 1)], relation := .GEQ, rightConst := lo }] else [])
        ++ (match p.2.2 with
            | some hi => [{ terms := [(i, 1)], relation := .LEQ, rightConst := hi }]
            | none => []))
    []

/-- Slack-variable count of `LP::initTableau`: one per non-EQ constraint. -/
def slackVarCount (cons : List Constraint) : ℕ :=
  (cons.filter (fun c => c.haveSlackVar)).length

/-- `LP::insertConToTableau`: write each constraint into its row — general
coefficients, the slack coefficient at the next slack column, the right
constant in the last column, and the basis index (`-1` for rows needing an
artificial).  Slack columns are `varCount, varCount+1, ...` (the C++
pre-increments a cursor starting at `varCount - 1`). -/
def insertConToTableau (t0 : Tableau) (cons : List Constraint) (varCount : ℕ) : Tableau :=
  (cons.foldl
    (fun (acc : Tableau × ℕ × ℕ) con =>
      let t := acc.1
      let rowIndex := acc.2.1
      let slackCol := acc.2.2
      let t := con.terms.foldl (fun t' p => t'.setEntry rowIndex p.1 p.2) t
      let slackCol' := if con.haveSlackVar then slackCol + 1 else slackCol
      let t := if con.haveSlackVar then t.setEntry rowIndex slackCol' con.getSlackVarCoef else t
      let t := t.setEntry rowIndex (t.cols - 1) con.rightConst
      let t := t.setBase rowIndex (if con.haveArtificialVar then -1 else (slackCol' : ℤ))
      (t, rowIndex + 1, slackCol'))
    (t0, 1, varCount - 1)).1

/-- Initial tableau of the LP constructor: `LP::initTableau` followed by
`LP::insertConToTableau`, over the user constraints then the range-derived
constraints. -/
def initialTableau (multiCon : List Constraint) (varRange : List VarRange) : Tableau :=
  let varCount := varRange.length
  let allCon := multiCon ++ varRangeMultiCon varRange
  insertConToTableau
    (Tableau.init (1 + allCon.length) (varCount + slackVarCount allCon + 1))
    allCon varCount

/-- The LP constructor `LP::LP` end to end: build the tableau, run phase 1 and
phase 2, classify.  `fuel` bounds the (unbounded) C++ pivot loops; `none`
means the modelled run did not finish within `fuel` pivots per phase. -/
def lpSolve (fuel : ℕ) (isMin : Bool) (objFunc : Linearform) (multiCon : List Constraint)
    (varRange : List VarRange) : Option LPResult :=
  solveFromTableau fuel isMin objFunc varRange.length (initialTableau multiCon varRange)

end LP

/-- B&B node type (`IP::Node::Type`). -/
inductive NodeType where
  | IP_FEASIBLE
  | LP_FEASIBLE
  | INFEASIBLE
  | UNBOUNDED
deriving DecidableEq, Repr

/-- A branch-and-bound node (`IP::Node`): the LP solution, its objective value
as lower bound, the node type, and (for LP_FEASIBLE nodes) the two child
bound boxes.  `type = none` models the C++-unreachable case where the LP left
its own status unassigned and the constructor assigns no type. -/
structure Node where
  solution : List ℚ := []
  lowerBound : ExtQ := .nan
  type : Option NodeType := none
  varRangeLeft : List VarRange := []
  varRangeRight : List VarRange := []
deriving DecidableEq, Repr

instance : Inhabited Node := ⟨{}⟩

namespace IP

/-- `IP::Node::getSplitVarIndex`: the smallest index whose solution entry is
not `FOP::isInt`; `none` models the C++ return value `-1`. -/
def getSplitVarIndex (solution : List ℚ) : Option ℕ :=
  solution.findIdx? (fun x => ! FOP.isInt x)

/-- The classification part of the `IP::Node` constructor, given the LP
result of the node's relaxation.  The split value is
`floor(getSplitValue(...)) = floor(solution[v*])` (the C++ `getSplitValue`
returns the LP solution value directly). -/
def nodeOfLP (varRange : List VarRange) (lp : LPResult) : Node :=
  let base : Node := { solution := lp.solution, lowerBound := lp.extremum.getD .nan }
  -- (.getD .nan only covers the C++-unreachable unassigned-extremum path;
  -- the field's own C++ default initializer is FP64_NAN as well)
  match lp.solutionType with
  | some .INFEASIBLE => { base with type := some .INFEASIBLE }
  | some .UNBOUNDED => { base with type := some .UNBOUNDED }
  | some .BOUNDED =>
    match getSplitVarIndex lp.solution with
    | none => { base with type := some .IP_FEASIBLE }
    | some v =>
      let s : ℚ := ((lp.solution.getD v 0).floor : ℚ)
      { base with
          type := some .LP_FEASIBLE
          varRangeLeft := varRange.set v ((varRange.getD v (0, none)).1, some s)
          varRangeRight := varRange.set v (s + 1, (varRange.getD v (0, none)).2) }
  | none => base

/-- `IP::Node::Node`: solve the LP relaxation (always as a min problem) and
classify.  `none` when the LP pivot loops exceed `fuel`. -/
def mkNode (fuel : ℕ) (objFunc : Linearform) (multiCon : List Constraint)
    (varRange : List VarRange) : Option Node :=
  (LP.lpSolve fuel true objFunc multiCon varRange).map (nodeOfLP varRange)

/-- `IP::Node::cmp`: `a.lowerBound > b.lowerBound` — the strict-weak-order
handed to `std::priority_queue`, making it a min-heap on the lower bound. -/
def nodeCmp (a b : Node) : Bool := ExtQ.blt b.lowerBound a.lowerBound

/-- The loop of `std::__push_heap` (libstdc++, the toolchain of the
repository's Makefile), with a structural fuel: the hole index strictly
decreases on each trip, so any `fuel ≥ hole` makes this equal to the C++
loop (when fuel is exhausted the hole has already reached index 0 and the
loop condition is false). -/
def siftUpGo (top : ℕ) (value : Node) : ℕ → List Node → ℕ → List Node
  | 0, arr, hole => arr.set hole value
  | fuel + 1, arr, hole =>
    if top < hole ∧ nodeCmp (arr.getD ((hole - 1) / 2) default) value then
      siftUpGo top value fuel
        (arr.set hole (arr.getD ((hole - 1) / 2) default)) ((hole - 1) / 2)
    else arr.set hole value

/-- `std::__push_heap`: sift the pushed value up from `hole` towards `top`,
moving each parent that compares before it down into the hole. -/
def siftUp (arr : List Node) (top hole : ℕ) (value : Node) : List Node :=
  siftUpGo top value hole arr hole

/-- The descending loop of `std::__adjust_heap`, with a structural fuel:
`secondChild` strictly increases on each trip and the loop stops once it
reaches `(len - 1) / 2`, so any `fuel ≥ len` makes this equal to the C++
loop.  Walks the hole down, always promoting the child that compares after
its sibling; returns the array, the hole index and the final `secondChild`. -/
def adjustLoopGo (len : ℕ) : ℕ → List Node → ℕ → ℕ → List Node × ℕ × ℕ
  | 0, arr, hole, sc => (arr, hole, sc)
  | fuel + 1, arr, hole, sc =>
    if sc < (len - 1) / 2 then
      let sc2 := 2 * (sc + 1)
      if nodeCmp (arr.getD sc2 default) (arr.getD (sc2 - 1) default) then
        adjustLoopGo len fuel (arr.set hole (arr.getD (sc2 - 1) default))
          (sc2 - 1) (sc2 - 1)
      else
        adjustLoopGo len fuel (arr.set hole (arr.getD sc2 default)) sc2 sc2
    else (arr, hole, sc)

def adjustLoop (arr : List Node) (hole sc len : ℕ) : List Node × ℕ × ℕ :=
  adjustLoopGo len len arr hole sc

/-- `std::__adjust_heap`: walk the hole to a leaf (with the odd-size special
case), then sift the displaced value back up. -/
def adjustHeap (arr : List Node) (holeIndex len : ℕ) (value : Node) : List Node :=
  let r := adjustLoop arr holeIndex holeIndex len
  let arr1 := r.1
  let hole1 := r.2.1
  let sc1 := r.2.2
  if len % 2 = 0 ∧ sc1 = (len - 2) / 2 then
    let sc2 := 2 * (sc1 + 1)
    siftUp (arr1.set hole1 (arr1.getD (sc2 - 1) default)) holeIndex (sc2 - 1) value
  else siftUp arr1 holeIndex hole1 value

/-- `priority_queue::push`: append then `std::push_heap` (sift up from the
last position). -/
def heapPush (q : List Node) (x : Node) : List Node :=
  siftUp (q ++ [x]) 0 q.length x

/-- `priority_queue::top` followed by `pop`: return the front element, move
the last element into the root's place and `__adjust_heap` over the shortened
array (`std::pop_heap` + `pop_back`). -/
def heapPop (q : List Node) : Option (Node × List Node) :=
  match q with
  | [] => none
  | topNode :: _ =>
    if 1 < q.length then
      let len := q.length - 1
      let value := q.getD len default
      let arr := q.set len (q.getD 0 default)
      some (topNode, (adjustHeap arr 0 len value).take len)
    else some (topNode, [])

end IP

namespace IP

/-- IP solution status (`IP::Type`). -/
inductive IPType where
  | BOUNDED
  | INFEASIBLE
  | UNBOUNDED
deriving DecidableEq, Repr

/-- The mutable state of the `IP` engine during a solve: status (default
INFEASIBLE), incumbent solution, incumbent upper bound (default `+inf`),
node queue (a binary heap) and the solved-node counter. -/
structure IPState where
  solutionType : IPType := .INFEASIBLE
  solution : List ℚ := []
  objValueUpperBound : ExtQ := .inf
  nodeQueue : List Node := []
  nodeSolvedCount : ℕ := 0
deriving DecidableEq, Repr

/-- `IP::checkNode`: update the incumbent on a strictly improving
IP_FEASIBLE node, enqueue an improving LP_FEASIBLE node, flag UNBOUNDED,
discard everything else; the solved-node counter always increments. -/
def checkNode (s : IPState) (n : Node) : IPState :=
  if n.type = some NodeType.IP_FEASIBLE ∧ ExtQ.blt n.lowerBound s.objValueUpperBound then
    { s with solutionType := .BOUNDED
             solution := n.solution
             objValueUpperBound := n.lowerBound
             nodeSolvedCount := s.nodeSolvedCount + 1 }
  else if n.type = some NodeType.LP_FEASIBLE ∧ ExtQ.blt n.lowerBound s.objValueUpperBound then
    { s with nodeQueue := heapPush s.nodeQueue n
             nodeSolvedCount := s.nodeSolvedCount + 1 }
  else if n.type = some NodeType.UNBOUNDED then
    { s with solutionType := .UNBOUNDED
             nodeSolvedCount := s.nodeSolvedCount + 1 }
  else { s with nodeSolvedCount := s.nodeSolvedCount + 1 }

/-- The loop of `IP::solve`: while the queue is non-empty and the status is
not UNBOUNDED, pop the lowest-bound node, solve both children's LP
relaxations and `checkNode` them.  `loopFuel` bounds the loop, `lpFuel` each
LP solve; `none` models a run that exceeds either budget. -/
def solveLoop (lpFuel : ℕ) (objFunc : Linearform) (multiCon : List Constraint) :
    ℕ → IPState → Option IPState
  | 0, _ => none
  | loopFuel + 1, s =>
    if s.nodeQueue.length = 0 ∨ s.solutionType = IPType.UNBOUNDED then some s
    else
      match heapPop s.nodeQueue with
      | none => some s
      | some (node, q') =>
        match mkNode lpFuel objFunc multiCon node.varRangeLeft,
              mkNode lpFuel objFunc multiCon node.varRangeRight with
        | some leftChild, some rightChild =>
          solveLoop lpFuel objFunc multiCon loopFuel
            (checkNode (checkNode { s with nodeQueue := q' } leftChild) rightChild)
        | _, _ => none

/-- The observable outcome of `IP::solve`. -/
structure IPResult where
  solutionType : IPType
  solution : List ℚ
  extremum : ExtQ
deriving DecidableEq, Repr

/-- `IP::solve` (with `IP::init` inlined): negate the objective for a max
problem, build the root node over the all-`[0, inf)` box, `checkNode` it,
loop, and report `objValueUpperBound * (isMin ? 1 : -1)`. -/
def ipSolve (lpFuel loopFuel : ℕ) (isMin : Bool) (objFunc : Linearform)
    (multiCon : List Constraint) (varCount : ℕ) : Option IPResult :=
  let innerObj := if isMin then objFunc else objFunc.negate
  let varRange : List VarRange := List.replicate varCount (0, none)
  match mkNode lpFuel innerObj multiCon varRange with
  | none => none
  | some rootNode =>
    match solveLoop lpFuel innerObj multiCon loopFuel (checkNode {} rootNode) with
    | none => none
    | some s =>
      some { solutionType := s.solutionType
             solution := s.solution
             extremum := if isMin then s.objValueUpperBound else s.objValueUpperBound.neg }

end IP

/-- The standard binary-heap invariant of the node queue maintained by
`std::push_heap`/`std::pop_heap`: no child compares before its parent under
`IP::Node::cmp` (so the root carries a minimal lower bound). -/
def IP.heapInv (q : List Node) : Prop :=
  ∀ i, 0 < i → i < q.length →
    IP.nodeCmp (q.getD ((i - 1) / 2) default) (q.getD i default) = false

/- Concrete inputs used by the individual claims below. -/

/-- A phase-2 driver state whose head row is `1e-6` on column 0: positive,
above `1e-10`, but below the `FOP::EPS = 1e-4` the code actually tests. -/
def enteringColCexTableau : Tableau :=
  { rows := 2, cols := 3
    arr := [1 / 10 ^ 6, 0, 0, 1, 1, 1]
    baseVarIndexs := [0, 2] }

/-- A driver state with an entering column (column 0, head entry 1) available. -/
def enteringColWitTableau : Tableau :=
  { rows := 2, cols := 3
    arr := [1, 0, 0, 1, 1, 5]
    baseVarIndexs := [0, 1] }

/-- A driver state that is immediately unbounded: column 0 enters
(head entry 3) but every constraint-row entry of column 0 is `≤ 1e-10`. -/
def unboundWitTableau : Tableau :=
  { rows := 3, cols := 4
    arr := [3, 0, 0, 0,
            0, 1, 2, 5,
            0, 0, 1, 7]
    baseVarIndexs := [0, 1, 2] }

/-- Objective `max x0 + x1` of LP test 0 / test 1 of `Tester::lpTests`. -/
def lpTestObj : Linearform := Linearform.add (Linearform.add {} 1 0) 1 1

/-- Constraints of LP test 0 (`Tester::lpTests`): `4 x0 + 3 x1 <= 17`,
`2 x0 - 5 x1 >= -9`, `x0 + 10 x1 >= 25`. -/
def lpTest0Cons : List Constraint :=
  [ Constraint.leq (Constraint.add (Constraint.add {} 4 0) 3 1) 17,
    Constraint.geq (Constraint.add (Constraint.add {} 2 0) (-5) 1) (-9),
    Constraint.geq (Constraint.add (Constraint.add {} 1 0) 10 1) 25 ]

/-- Constraints of LP test 1 (`Tester::lpTests`): as test 0 but with
`x0 + 10 x1 >= 30`, making the problem infeasible. -/
def lpTest1Cons : List Constraint :=
  [ Constraint.leq (Constraint.add (Constraint.add {} 4 0) 3 1) 17,
    Constraint.geq (Constraint.add (Constraint.add {} 2 0) (-5) 1) (-9),
    Constraint.geq (Constraint.add (Constraint.add {} 1 0) 10 1) 30 ]

/-- Variable ranges `x0, x1 ∈ [0, ∞)` of LP tests 0–2. -/
def lpTestRange : List VarRange := [(0, none), (0, none)]

/-- A B&B node with lower bound 1 and a tag in its solution field, used to
exercise the queue on equal-priority nodes. -/
def tieNode (k : ℚ) : Node :=
  { solution := [k], lowerBound := .fin 1, type := some .LP_FEASIBLE }

/-- The queue after pushing `tieNode 1, tieNode 2, tieNode 3, tieNode 4`
in that order. -/
def tieQueue : List Node :=
  IP.heapPush (IP.heapPush (IP.heapPush (IP.heapPush [] (tieNode 1)) (tieNode 2))
    (tieNode 3)) (tieNode 4)

/-! ### Helper lemmas -/

theorem findFirstPosCol_eq_some_iff (t : Tableau) :
    ∀ (count start j : ℕ),
      LP.findFirstPosCol t start count = some j ↔
        start ≤ j ∧ j < start + count ∧ FOP.isPos (t.get 0 j) = true ∧
          ∀ j', start ≤ j' → j' < j → FOP.isPos (t.get 0 j') = false := by
  intro count
  induction count with
  | zero =>
    intro start j
    simp only [LP.findFirstPosCol]
    constructor
    · intro h; cases h
    · intro h; omega
  | succ c ih =>
    intro start j
    simp only [LP.findFirstPosCol]
    by_cases hp : FOP.isPos (t.get 0 start) = true
    · rw [if_pos hp]
      constructor
      · intro h
        cases h
        refine ⟨le_refl _, by omega, hp, ?_⟩
        intro j' h1 h2; omega
      · rintro ⟨h1, _, _, h4⟩
        rcases Nat.eq_or_lt_of_le h1 with he | hlt
        · cases he; rfl
        · exact absurd hp (by simpa using h4 start (le_refl _) hlt)
    · rw [if_neg hp]
      rw [ih (start + 1) j]
      constructor
      · rintro ⟨h1, h2, h3, h4⟩
        refine ⟨by omega, by omega, h3, ?_⟩
        intro j' hj1 hj2
        rcases Nat.eq_or_lt_of_le hj1 with he | hlt
        · cases he; simpa using hp
        · exact h4 j' hlt hj2
      · rintro ⟨h1, h2, h3, h4⟩
        have hne : start ≠ j := by
          intro he; rw [← he] at h3; exact hp h3
        refine ⟨by omega, by omega, h3, ?_⟩
        intro j' hj1 hj2
        exact h4 j' (by omega) hj2

theorem findFirstPosCol_eq_none_iff (t : Tableau) :
    ∀ (count start : ℕ),
      LP.findFirstPosCol t start count = none ↔
        ∀ j', start ≤ j' → j' < start + count → FOP.isPos (t.get 0 j') = false := by
  intro count
  induction count with
  | zero =>
    intro start
    simp only [LP.findFirstPosCol]
    constructor
    · intro _ j' h1 h2; omega
    · intro _; trivial
  | succ c ih =>
    intro start
    simp only [LP.findFirstPosCol]
    by_cases hp : FOP.isPos (t.get 0 start) = true
    · rw [if_pos hp]
      constructor
      · intro h; cases h
      · intro h
        exact absurd hp (by simpa using h start (le_refl _) (by omega))
    · rw [if_neg hp]
      rw [ih (start + 1)]
      constructor
      · intro h j' h1 h2
        rcases Nat.eq_or_lt_of_le h1 with he | hlt
        · cases he; simpa using hp
        · exact h j' hlt (by omega)
      · intro h j' h1 h2
        exact h j' (by omega) (by omega)

theorem isPos_iff (x : ℚ) : FOP.isPos x = true ↔ FOP.EPS ≤ x := by
  simp [FOP.isPos]

theorem isPos_false_iff (x : ℚ) : FOP.isPos x = false ↔ ¬ FOP.EPS ≤ x := by
  simp [FOP.isPos]

/-! ### C1 -/

/-- C1 (amended): on every iteration of the min-simplex driver, the entering
column returned by `findNewBaseVarIndex` is the smallest column index
`j ≤ cols - 2` (excluding the rhs column) whose row-0 entry is at least
`FOP::EPS = 1e-4` (the code's `isPos` threshold, not "strictly greater than
1e-10"); when no such column exists the driver stops at once and declares the
tableau optimal. -/
theorem lp_entering_column_spec (t : Tableau) (j : ℕ) :
    (LP.findNewBaseVarIndex t = some j →
       j + 1 ≤ t.cols - 1 ∧ FOP.EPS ≤ t.get 0 j ∧
         ∀ j' < j, ¬ FOP.EPS ≤ t.get 0 j') ∧
    (LP.findNewBaseVarIndex t = none →
       (∀ j' < t.cols - 1, ¬ FOP.EPS ≤ t.get 0 j') ∧
         ∀ fuel, LP.runMinSimplex (fuel + 1) t = .finished t) := by
  constructor
  · intro h
    rw [LP.findNewBaseVarIndex, findFirstPosCol_eq_some_iff] at h
    obtain ⟨-, h2, h3, h4⟩ := h
    refine ⟨by omega, (isPos_iff _).1 h3, ?_⟩
    intro j' hj'
    exact (isPos_false_iff _).1 (h4 j' (Nat.zero_le _) hj')
  · intro h
    rw [LP.findNewBaseVarIndex, findFirstPosCol_eq_none_iff] at h
    constructor
    · intro j' hj'
      exact (isPos_false_iff _).1 (h j' (Nat.zero_le _) (by omega))
    · intro fuel
      have hnone : LP.findNewBaseVarIndex t = none := by
        rw [LP.findNewBaseVarIndex, findFirstPosCol_eq_none_iff]
        exact h
      simp [LP.runMinSimplex, hnone]

/-- C1 witness: `lp_entering_column_spec` applied to a concrete driver state
whose entering column is 0. -/
theorem lp_entering_column_spec_witness :
    FOP.EPS ≤ enteringColWitTableau.get 0 0 ∧
      0 + 1 ≤ enteringColWitTableau.cols - 1 := by
  have h := (lp_entering_column_spec enteringColWitTableau 0).1 (by decide)
  exact ⟨h.2.1, h.1⟩

/-- C1 counterexample: a driver state whose row-0 entry in column 0 is
`1e-6` — strictly greater than the claimed tolerance `1e-10` — yet the code
finds no entering column and the driver stops, declaring the LP optimal. -/
theorem lp_entering_column_cex :
    (1 : ℚ) / 10 ^ 10 < enteringColCexTableau.get 0 0 ∧
      0 < enteringColCexTableau.cols - 1 ∧
      LP.findNewBaseVarIndex enteringColCexTableau = none ∧
      LP.runMinSimplex 5 enteringColCexTableau = .finished enteringColCexTableau := by
  decide

/-! ### Lemmas about the extraction loops -/

theorem mem_drop_one_range {n i : ℕ} :
    i ∈ (List.range n).drop 1 ↔ 1 ≤ i ∧ i < n := by
  cases n with
  | zero => simp
  | succ m =>
    rw [List.range_succ_eq_map]
    simp only [List.drop_succ_cons, List.drop_zero, List.mem_map, List.mem_range]
    constructor
    · rintro ⟨k, hk, rfl⟩; omega
    · rintro ⟨h1, h2⟩; exact ⟨i - 1, by omega, by omega⟩

theorem baseUpdateGo_length (t : Tableau) (varCount : ℕ) (val : ℕ → ℚ) :
    ∀ (is : List ℕ) (l : List ℚ),
      (LP.baseUpdateGo t varCount val is l).length = l.length := by
  intro is
  induction is with
  | nil => intro l; rfl
  | cons a rest ih =>
    intro l
    rw [LP.baseUpdateGo, ih]
    by_cases h : 0 ≤ t.base a ∧ t.base a < (varCount : ℤ)
    · rw [if_pos h, List.length_set]
    · rw [if_neg h]

theorem baseUpdateGo_getD_of_not_written (t : Tableau) (varCount : ℕ) (val : ℕ → ℚ)
    (v : ℕ) :
    ∀ (is : List ℕ) (l : List ℚ),
      (∀ i ∈ is, t.base i ≠ (v : ℤ)) →
      (LP.baseUpdateGo t varCount val is l).getD v 0 = l.getD v 0 := by
  intro is
  induction is with
  | nil => intro l _; rfl
  | cons a rest ih =>
    intro l hne
    rw [LP.baseUpdateGo]
    rw [ih _ (fun i hi => hne i (List.mem_cons_of_mem a hi))]
    by_cases h : 0 ≤ t.base a ∧ t.base a < (varCount : ℤ)
    · rw [if_pos h]
      have hv : (t.base a).toNat ≠ v := by
        intro he
        exact hne a (List.mem_cons_self a rest) (by omega)
      simp only [List.getD_eq_getElem?_getD, List.getElem?_set_ne hv]
    · rw [if_neg h]

theorem baseUpdateGo_getD_of_written (t : Tableau) (varCount : ℕ) (val : ℕ → ℚ)
    (v : ℕ) (c : ℚ) :
    ∀ (is : List ℕ) (l : List ℚ),
      v < varCount → l.length = varCount →
      (∃ i ∈ is, t.base i = (v : ℤ)) →
      (∀ i ∈ is, t.base i = (v : ℤ) → val i = c) →
      (LP.baseUpdateGo t varCount val is l).getD v 0 = c := by
  intro is
  induction is with
  | nil =>
    intro l _ _ hex _
    obtain ⟨i, hi, -⟩ := hex
    cases hi
  | cons a rest ih =>
    intro l hv hlen hex hval
    rw [LP.baseUpdateGo]
    by_cases hba : t.base a = (v : ℤ)
    · have hrange : 0 ≤ t.base a ∧ t.base a < (varCount : ℤ) := by
        constructor <;> omega
      rw [if_pos hrange]
      have hset : (l.set (t.base a).toNat (val a)).getD v 0 = c := by
        have htn : (t.base a).toNat = v := by omega
        rw [htn, List.getD_eq_getElem?_getD,
          List.getElem?_set_self (by omega), Option.getD_some,
          hval a (List.mem_cons_self a rest) hba]
      by_cases hrest : ∃ i ∈ rest, t.base i = (v : ℤ)
      · exact ih _ hv (by rw [List.length_set]; exact hlen) hrest
          (fun i hi hb => hval i (List.mem_cons_of_mem a hi) hb)
      · push_neg at hrest
        rw [baseUpdateGo_getD_of_not_written t varCount val v rest _ hrest]
        exact hset
    · have hstep :
          (if 0 ≤ t.base a ∧ t.base a < (varCount : ℤ) then
            l.set (t.base a).toNat (val a) else l).length = varCount := by
        by_cases h : 0 ≤ t.base a ∧ t.base a < (varCount : ℤ)
        · rw [if_pos h, List.length_set]; exact hlen
        · rw [if_neg h]; exact hlen
      have hex' : ∃ i ∈ rest, t.base i = (v : ℤ) := by
        obtain ⟨i, hi, hb⟩ := hex
        rcases List.mem_cons.1 hi with rfl | hi'
        · exact absurd hb hba
        · exact ⟨i, hi', hb⟩
      exact ih _ hv hstep hex'
        (fun i hi hb => hval i (List.mem_cons_of_mem a hi) hb)

theorem baseUpdate_length (t : Tableau) (varCount : ℕ) (val : ℕ → ℚ) :
    (LP.baseUpdate t varCount val).length = varCount := by
  rw [LP.baseUpdate, baseUpdateGo_length, List.length_replicate]

theorem baseUpdate_getD_written (t : Tableau) (varCount : ℕ) (val : ℕ → ℚ)
    (i v : ℕ) (h1 : 1 ≤ i) (h2 : i < t.rows) (hb : t.base i = (v : ℤ))
    (hv : v < varCount)
    (hdist : ∀ i1 i2, 1 ≤ i1 → i1 < t.rows → 1 ≤ i2 → i2 < t.rows → i1 ≠ i2 →
      t.base i1 ≠ t.base i2) :
    (LP.baseUpdate t varCount val).getD v 0 = val i := by
  rw [LP.baseUpdate]
  refine baseUpdateGo_getD_of_written t varCount val v (val i) _ _ hv
    (List.length_replicate _ _) ⟨i, mem_drop_one_range.2 ⟨h1, h2⟩, hb⟩ ?_
  intro i' hi' hb'
  obtain ⟨h1', h2'⟩ := mem_drop_one_range.1 hi'
  by_cases he : i' = i
  · rw [he]
  · exact absurd (hb'.trans hb.symm) (hdist i' i h1' h2' h1 h2 he)

theorem baseUpdate_getD_not_written (t : Tableau) (varCount : ℕ) (val : ℕ → ℚ)
    (v : ℕ) (hv : v < varCount)
    (hno : ∀ i, 1 ≤ i → i < t.rows → t.base i ≠ (v : ℤ)) :
    (LP.baseUpdate t varCount val).getD v 0 = 0 := by
  rw [LP.baseUpdate, baseUpdateGo_getD_of_not_written]
  · simp [List.getD_eq_getElem?_getD, List.getElem?_replicate, hv]
  · intro i hi
    obtain ⟨h1, h2⟩ := mem_drop_one_range.1 hi
    exact hno i h1 h2

theorem minRatioScan_eq_best (t : Tableau) (j : ℕ) :
    ∀ (count start : ℕ) (minRatio : ℚ) (best : Option ℕ),
      (∀ i, start ≤ i → i < start + count → FOP.isPos (t.get i j) = false) →
      LP.minRatioScan t j start count minRatio best = best := by
  intro count
  induction count with
  | zero => intro start minRatio best _; rfl
  | succ c ih =>
    intro start minRatio best h
    rw [LP.minRatioScan]
    rw [if_neg (by simp [h start (le_refl _) (by omega)])]
    exact ih (start + 1) minRatio best (fun i h1 h2 => h i (by omega) (by omega))

theorem findMinPosRatioRowIndex_eq_none (t : Tableau) (j : ℕ)
    (h : ∀ i, 1 ≤ i → i < t.rows → FOP.isPos (t.get i j) = false) :
    LP.findMinPosRatioRowIndex t j = none := by
  rw [LP.findMinPosRatioRowIndex]
  exact minRatioScan_eq_best t j (t.rows - 1) 1 _ none
    (fun i h1 h2 => h i h1 (by omega))

/-! ### C3 -/

/-- C3: whenever the min-ratio test fails on the entering column `j` — in
particular whenever every constraint-row entry of column `j` is at most
`1e-10` — the phase-2 driver returns UNBOUNDED at once with extremum `-inf`
for a min problem and `+inf` for a max problem, and a direction vector of
length `varCount` in which each general variable `v` that is basic in some
row `i` gets `A(i, j) * (isMin ? 1 : -1)` and every other entry is 0. -/
theorem lp_min_ratio_fail_unbounded (fuel : ℕ) (isMin : Bool) (varCount : ℕ)
    (t : Tableau) (j : ℕ)
    (hfind : LP.findNewBaseVarIndex t = some j)
    (hcol : ∀ i, 1 ≤ i → i < t.rows → t.get i j ≤ 1 / 10 ^ 10)
    (hdist : ∀ i1 i2, 1 ≤ i1 → i1 < t.rows → 1 ≤ i2 → i2 < t.rows → i1 ≠ i2 →
      t.base i1 ≠ t.base i2) :
    LP.runSimplexAndClassify (fuel + 1) isMin varCount t
        = some (LP.handleUnbound isMin varCount t j) ∧
    (LP.handleUnbound isMin varCount t j).solutionType = some LPType.UNBOUNDED ∧
    (LP.handleUnbound isMin varCount t j).extremum
        = some (if isMin then ExtQ.ninf else ExtQ.inf) ∧
    (LP.handleUnbound isMin varCount t j).unboundedDirection.length = varCount ∧
    (∀ (i v : ℕ), 1 ≤ i → i < t.rows → t.base i = (v : ℤ) → v < varCount →
      (LP.handleUnbound isMin varCount t j).unboundedDirection.getD v 0
        = t.get i j * (if isMin then 1 else -1)) ∧
    (∀ (v : ℕ), v < varCount → (∀ i, 1 ≤ i → i < t.rows → t.base i ≠ (v : ℤ)) →
      (LP.handleUnbound isMin varCount t j).unboundedDirection.getD v 0 = 0) := by
  have hratio : LP.findMinPosRatioRowIndex t j = none := by
    refine findMinPosRatioRowIndex_eq_none t j ?_
    intro i h1 h2
    rw [isPos_false_iff]
    intro hle
    have h10 : (1 : ℚ) / 10 ^ 10 < FOP.EPS := by norm_num [FOP.EPS]
    have := hcol i h1 h2
    linarith
  refine ⟨?_, rfl, rfl, ?_, ?_, ?_⟩
  · simp [LP.runSimplexAndClassify, LP.runMinSimplex, hfind, hratio]
  · exact baseUpdate_length t varCount _
  · intro i v h1 h2 hb hv
    exact baseUpdate_getD_written t varCount _ i v h1 h2 hb hv hdist
  · intro v hv hno
    exact baseUpdate_getD_not_written t varCount _ v hv hno

/-- C3 witness: `lp_min_ratio_fail_unbounded` at a concrete driver state
(column 0 enters, all column-0 row entries are 0), checking the computed
direction vector. -/
theorem lp_min_ratio_fail_unbounded_witness :
    LP.runSimplexAndClassify 4 true 2 unboundWitTableau
        = some (LP.handleUnbound true 2 unboundWitTableau 0) ∧
    (LP.handleUnbound true 2 unboundWitTableau 0).unboundedDirection.length = 2 := by
  have h := lp_min_ratio_fail_unbounded 3 true 2 unboundWitTableau 0
    (by decide) (by decide)
    (by
      intro i1 i2 h1 h2 h3 h4 h5
      have h2' : i1 < 3 := h2
      have h4' : i2 < 3 := h4
      interval_cases i1 <;> interval_cases i2 <;> first | omega | decide)
  exact ⟨h.1, h.2.2.2.1⟩

theorem runSimplexAndClassify_unbounded_shape (fuel : ℕ) (isMin : Bool) (vc : ℕ)
    (t : Tableau) (res : LPResult)
    (h : LP.runSimplexAndClassify fuel isMin vc t = some res)
    (hu : res.solutionType = some LPType.UNBOUNDED) :
    ∃ (t' : Tableau) (j : ℕ), res = LP.handleUnbound isMin vc t' j := by
  rw [LP.runSimplexAndClassify] at h
  cases hrun : LP.runMinSimplex fuel t with
  | finished t' =>
    simp only [hrun] at h
    by_cases hart : LP.isTableauHaveArtificialVar t' = true
    · rw [if_pos hart] at h
      cases h
      cases hu
    · rw [if_neg hart] at h
      cases h
      cases hu
  | unboundedAt t' j =>
    simp only [hrun] at h
    cases h
    exact ⟨t', j, rfl⟩
  | fuelOut =>
    simp only [hrun] at h
    cases h

theorem solveFromTableau_unbounded_shape (fuel : ℕ) (isMin : Bool)
    (obj : Linearform) (vc : ℕ) (t0 : Tableau) (res : LPResult)
    (h : LP.solveFromTableau fuel isMin obj vc t0 = some res)
    (hu : res.solutionType = some LPType.UNBOUNDED) :
    ∃ (t' : Tableau) (j : ℕ), res = LP.handleUnbound isMin vc t' j := by
  rw [LP.solveFromTableau] at h
  by_cases hart : LP.isTableauHaveArtificialVar t0 = true
  · rw [if_pos hart] at h
    cases hrun : LP.runMinSimplex fuel (LP.addArtificialRowsToHead t0) with
    | finished t' =>
      simp only [hrun] at h
      by_cases hart2 : LP.isTableauHaveArtificialVar t' = true
      · rw [if_pos hart2] at h
        cases h
        cases hu
      · rw [if_neg hart2] at h
        exact runSimplexAndClassify_unbounded_shape _ _ _ _ _ h hu
    | unboundedAt t' j =>
      simp only [hrun] at h
      cases h
      cases hu
    | fuelOut =>
      simp only [hrun] at h
      cases h
  · rw [if_neg hart] at h
    exact runSimplexAndClassify_unbounded_shape _ _ _ _ _ h hu

/-! ### C10 -/

/-- C10: whenever the LP solve returns UNBOUNDED, the returned solution
vector is not empty — it has length `n` (the number of general variables) and
holds the current basic vertex: it is the `handleUnbound` extraction in which
each general variable `v` basic in some constraint row `i` gets that row's
right constant and every other general variable gets 0. -/
theorem lp_unbounded_solution_vertex :
    (∀ (fuel : ℕ) (isMin : Bool) (obj : Linearform) (cons : List Constraint)
       (range : List VarRange) (res : LPResult),
       LP.lpSolve fuel isMin obj cons range = some res →
       res.solutionType = some LPType.UNBOUNDED →
       res.solution.length = range.length ∧
       (0 < range.length → res.solution ≠ []) ∧
       ∃ (t' : Tableau) (j : ℕ), res = LP.handleUnbound isMin range.length t' j) ∧
    (∀ (isMin : Bool) (vc : ℕ) (t : Tableau) (j : ℕ),
       (∀ i1 i2, 1 ≤ i1 → i1 < t.rows → 1 ≤ i2 → i2 < t.rows → i1 ≠ i2 →
         t.base i1 ≠ t.base i2) →
       (∀ (i v : ℕ), 1 ≤ i → i < t.rows → t.base i = (v : ℤ) → v < vc →
         (LP.handleUnbound isMin vc t j).solution.getD v 0 = t.get i (t.cols - 1)) ∧
       (∀ (v : ℕ), v < vc → (∀ i, 1 ≤ i → i < t.rows → t.base i ≠ (v : ℤ)) →
         (LP.handleUnbound isMin vc t j).solution.getD v 0 = 0)) := by
  constructor
  · intro fuel isMin obj cons range res h hu
    obtain ⟨t', j, rfl⟩ := solveFromTableau_unbounded_shape _ _ _ _ _ _ h hu
    have hlen : (LP.handleUnbound isMin range.length t' j).solution.length
        = range.length := baseUpdate_length t' range.length _
    refine ⟨hlen, ?_, t', j, rfl⟩
    intro hpos hnil
    rw [hnil] at hlen
    simp at hlen
    omega
  · intro isMin vc t j hdist
    constructor
    · intro i v h1 h2 hb hv
      exact baseUpdate_getD_written t vc _ i v h1 h2 hb hv hdist
    · intro v hv hno
      exact baseUpdate_getD_not_written t vc _ v hv hno

set_option maxRecDepth 8000 in
set_option maxHeartbeats 2000000 in
/-- C10 witness: the concrete unbounded LP of `Tester::lpTests` test 2
(`max x0` s.t. `x0 - x1 <= 1`, `2 x0 - x1 <= 4`) returns UNBOUNDED with the
non-empty solution vector `[3, 2]`, as characterised by
`lp_unbounded_solution_vertex`. -/
theorem lp_unbounded_solution_vertex_witness :
    ∃ (res : LPResult),
      LP.lpSolve 20 false (Linearform.add {} 1 0)
        [ Constraint.leq (Constraint.add (Constraint.add {} 1 0) (-1) 1) 1,
          Constraint.leq (Constraint.add (Constraint.add {} 2 0) (-1) 1) 4 ]
        lpTestRange = some res ∧
      res.solution.length = 2 ∧ res.solution ≠ [] := by
  have hrun : LP.lpSolve 20 false (Linearform.add {} 1 0)
      [ Constraint.leq (Constraint.add (Constraint.add {} 1 0) (-1) 1) 1,
        Constraint.leq (Constraint.add (Constraint.add {} 2 0) (-1) 1) 4 ]
      lpTestRange
      = some { solutionType := some LPType.UNBOUNDED, solution := [3, 2],
               unboundedDirection := [1, 2], extremum := some ExtQ.inf } := by
    decide
  have h := lp_unbounded_solution_vertex.1 20 false (Linearform.add {} 1 0)
    [ Constraint.leq (Constraint.add (Constraint.add {} 1 0) (-1) 1) 1,
      Constraint.leq (Constraint.add (Constraint.add {} 2 0) (-1) 1) 4 ]
    lpTestRange _ hrun rfl
  exact ⟨_, hrun, h.1, h.2.1 (by decide)⟩

/-! ### C4 -/

/-- C4: for a BOUNDED, non-integral node, the `IP::Node` constructor marks it
LP_FEASIBLE, picks as split variable the smallest index `v` whose solution
value is not within `FOP::EPS = 1e-4` of an integer, sets the split value
`s = floor(solution[v])`, and produces a left child box equal to the parent's
with `hi[v] = s` and a right child box equal to the parent's with
`lo[v] = s + 1`, all other bounds unchanged. -/
theorem ip_branching_split (varRange : List VarRange) (lp : LPResult) (v : ℕ)
    (hb : lp.solutionType = some LPType.BOUNDED)
    (hsplit : IP.getSplitVarIndex lp.solution = some v) :
    (IP.nodeOfLP varRange lp).type = some NodeType.LP_FEASIBLE ∧
    v < lp.solution.length ∧
    FOP.isInt (lp.solution.getD v 0) = false ∧
    (∀ k < v, FOP.isInt (lp.solution.getD k 0) = true) ∧
    (IP.nodeOfLP varRange lp).varRangeLeft
      = varRange.set v ((varRange.getD v (0, none)).1,
          some (((lp.solution.getD v 0).floor : ℤ) : ℚ)) ∧
    (IP.nodeOfLP varRange lp).varRangeRight
      = varRange.set v ((((lp.solution.getD v 0).floor : ℤ) : ℚ) + 1,
          (varRange.getD v (0, none)).2) ∧
    (∀ k, k ≠ v →
      (IP.nodeOfLP varRange lp).varRangeLeft.getD k (0, none)
          = varRange.getD k (0, none) ∧
      (IP.nodeOfLP varRange lp).varRangeRight.getD k (0, none)
          = varRange.getD k (0, none)) := by
  have hspec := List.findIdx?_eq_some_iff_getElem.1 hsplit
  obtain ⟨hlt, hp, hmin⟩ := hspec
  have hgetD : lp.solution.getD v 0 = lp.solution[v] := by
    rw [List.getD_eq_getElem?_getD, List.getElem?_eq_getElem hlt, Option.getD_some]
  have hnode : IP.nodeOfLP varRange lp =
      { solution := lp.solution, lowerBound := lp.extremum.getD ExtQ.nan
        type := some NodeType.LP_FEASIBLE
        varRangeLeft := varRange.set v ((varRange.getD v (0, none)).1,
          some (((lp.solution.getD v 0).floor : ℤ) : ℚ))
        varRangeRight := varRange.set v ((((lp.solution.getD v 0).floor : ℤ) : ℚ) + 1,
          (varRange.getD v (0, none)).2) } := by
    rw [IP.nodeOfLP, hb]
    simp only [hsplit]
  refine ⟨by rw [hnode], hlt, ?_, ?_, by rw [hnode], by rw [hnode], ?_⟩
  · rw [hgetD]
    simpa using hp
  · intro k hk
    have hk' : k < lp.solution.length := lt_trans hk hlt
    have : (! FOP.isInt lp.solution[k]) = false := by
      simpa using hmin k hk
    rw [List.getD_eq_getElem?_getD, List.getElem?_eq_getElem hk', Option.getD_some]
    simpa using this
  · intro k hk
    rw [hnode]
    constructor <;>
      simp only [List.getD_eq_getElem?_getD, List.getElem?_set_ne (Ne.symm hk)]

/-- C4 witness: `ip_branching_split` on the box `[0,∞)²` with LP solution
`(2, 3/2)`: split variable 1, split value 1, children `hi[1] = 1` /
`lo[1] = 2`. -/
theorem ip_branching_split_witness :
    (IP.nodeOfLP [((0 : ℚ), (none : Option ℚ)), (0, none)]
        { solutionType := some LPType.BOUNDED, solution := [2, 3/2],
          extremum := some (ExtQ.fin (7/2)) }).type = some NodeType.LP_FEASIBLE ∧
    (IP.nodeOfLP [((0 : ℚ), (none : Option ℚ)), (0, none)]
        { solutionType := some LPType.BOUNDED, solution := [2, 3/2],
          extremum := some (ExtQ.fin (7/2)) }).varRangeLeft
      = [((0 : ℚ), (none : Option ℚ))].set 1 (0, some 1) ++ [((0 : ℚ), some (1 : ℚ))] := by
  have h := ip_branching_split [((0 : ℚ), (none : Option ℚ)), (0, none)]
    { solutionType := some LPType.BOUNDED, solution := [2, 3/2],
      extremum := some (ExtQ.fin (7/2)) } 1 rfl (by decide)
  refine ⟨h.1, ?_⟩
  rw [h.2.2.2.2.1]
  decide

/-! ### C5 -/

theorem ExtQ_blt_trans {a b c : ExtQ} (h1 : ExtQ.blt a b = true)
    (h2 : ExtQ.blt b c = true) : ExtQ.blt a c = true := by
  cases a <;> cases b <;> cases c <;> simp_all [ExtQ.blt]
  linarith

theorem checkNode_characterize (s : IP.IPState) (n : Node) :
    (IP.checkNode s n).objValueUpperBound = s.objValueUpperBound ∨
      (n.type = some NodeType.IP_FEASIBLE ∧
       ExtQ.blt n.lowerBound s.objValueUpperBound = true ∧
       (IP.checkNode s n).objValueUpperBound = n.lowerBound ∧
       (IP.checkNode s n).solution = n.solution) := by
  rw [IP.checkNode]
  split
  · next h => exact Or.inr ⟨h.1, h.2, rfl, rfl⟩
  · split
    · exact Or.inl rfl
    · split
      · exact Or.inl rfl
      · exact Or.inl rfl

theorem checkNode_ub_le (s : IP.IPState) (n : Node) :
    (IP.checkNode s n).objValueUpperBound = s.objValueUpperBound ∨
      ExtQ.blt (IP.checkNode s n).objValueUpperBound s.objValueUpperBound = true := by
  rcases checkNode_characterize s n with h | h
  · exact Or.inl h
  · rw [h.2.2.1]
    exact Or.inr h.2.1

theorem ub_le_trans {a b c : ExtQ}
    (h1 : a = b ∨ ExtQ.blt a b = true) (h2 : b = c ∨ ExtQ.blt b c = true) :
    a = c ∨ ExtQ.blt a c = true := by
  rcases h1 with rfl | h1
  · exact h2
  · rcases h2 with rfl | h2
    · exact Or.inr h1
    · exact Or.inr (ExtQ_blt_trans h1 h2)

theorem solveLoop_ub_mono (lpFuel : ℕ) (obj : Linearform) (cons : List Constraint) :
    ∀ (loopFuel : ℕ) (s s' : IP.IPState),
      IP.solveLoop lpFuel obj cons loopFuel s = some s' →
      s'.objValueUpperBound = s.objValueUpperBound ∨
        ExtQ.blt s'.objValueUpperBound s.objValueUpperBound = true := by
  intro loopFuel
  induction loopFuel with
  | zero =>
    intro s s' h
    simp [IP.solveLoop] at h
  | succ f ih =>
    intro s s' h
    rw [IP.solveLoop] at h
    by_cases hstop : s.nodeQueue.length = 0 ∨ s.solutionType = IP.IPType.UNBOUNDED
    · rw [if_pos hstop] at h
      cases h
      exact Or.inl rfl
    · rw [if_neg hstop] at h
      cases hpop : IP.heapPop s.nodeQueue with
      | none =>
        simp only [hpop] at h
        cases h
        exact Or.inl rfl
      | some pair =>
        simp only [hpop] at h
        cases hl : IP.mkNode lpFuel obj cons pair.1.varRangeLeft with
        | none =>
          simp only [hl] at h
          cases h
        | some leftChild =>
          cases hr : IP.mkNode lpFuel obj cons pair.1.varRangeRight with
          | none =>
            simp only [hl, hr] at h
            cases h
          | some rightChild =>
            simp only [hl, hr] at h
            have hmid := ih _ _ h
            have hstep : (IP.checkNode (IP.checkNode
                { s with nodeQueue := pair.2 } leftChild) rightChild).objValueUpperBound
                  = s.objValueUpperBound ∨
                ExtQ.blt (IP.checkNode (IP.checkNode
                  { s with nodeQueue := pair.2 } leftChild) rightChild).objValueUpperBound
                  s.objValueUpperBound = true :=
              ub_le_trans (checkNode_ub_le _ rightChild) (checkNode_ub_le _ leftChild)
            exact ub_le_trans hmid hstep

/-- C5: the incumbent upper bound is non-increasing throughout a sequential
IP solve: `checkNode` changes `objValueUpperBound` only on an IP_FEASIBLE
node whose lower bound is strictly below the current bound — in which case it
sets the bound to that lower bound and records the node's solution as the
incumbent — and along the whole `solve` loop the bound never increases. -/
theorem ip_incumbent_monotone :
    (∀ (s : IP.IPState) (n : Node),
      (IP.checkNode s n).objValueUpperBound = s.objValueUpperBound ∨
        (n.type = some NodeType.IP_FEASIBLE ∧
         ExtQ.blt n.lowerBound s.objValueUpperBound = true ∧
         (IP.checkNode s n).objValueUpperBound = n.lowerBound ∧
         (IP.checkNode s n).solution = n.solution)) ∧
    (∀ (lpFuel : ℕ) (obj : Linearform) (cons : List Constraint) (loopFuel : ℕ)
       (s s' : IP.IPState),
      IP.solveLoop lpFuel obj cons loopFuel s = some s' →
      s'.objValueUpperBound = s.objValueUpperBound ∨
        ExtQ.blt s'.objValueUpperBound s.objValueUpperBound = true) :=
  ⟨checkNode_characterize, solveLoop_ub_mono⟩

/-- C5 witness: the loop conjunct of `ip_incumbent_monotone` applied to the
empty state (empty queue, bound `+inf`), whose solve loop stops at once. -/
theorem ip_incumbent_monotone_witness :
    ({} : IP.IPState).objValueUpperBound = ({} : IP.IPState).objValueUpperBound ∨
      ExtQ.blt ({} : IP.IPState).objValueUpperBound
        ({} : IP.IPState).objValueUpperBound = true :=
  ip_incumbent_monotone.2 1 {} [] 1 {} {} (by decide)

/-! ### C6 -/

theorem insertObjFunc_negate (obj : Linearform) (t : Tableau) :
    LP.insertObjFuncToTableau false obj t
      = LP.insertObjFuncToTableau true obj.negate t := by
  rw [LP.insertObjFuncToTableau, LP.insertObjFuncToTableau, Linearform.negate,
    List.foldl_map]
  have hfun : (fun (t' : Tableau) (p : ℕ × ℚ) =>
        t'.setEntry 0 p.1 (p.2 * if false = true then -1 else 1))
      = fun (t' : Tableau) (p : ℕ × ℚ) =>
        t'.setEntry 0 (p.1, -p.2).1 ((p.1, -p.2).2 * if true = true then -1 else 1) := by
    funext t' p
    simp only [if_true, if_false]
    norm_num
  rw [hfun]

theorem baseUpdateGo_neg (t : Tableau) (vc : ℕ) (val : ℕ → ℚ) :
    ∀ (is : List ℕ) (l : List ℚ),
      LP.baseUpdateGo t vc (fun i => -(val i)) is (l.map (fun x => -x))
        = (LP.baseUpdateGo t vc val is l).map (fun x => -x) := by
  intro is
  induction is with
  | nil => intro l; rfl
  | cons a rest ih =>
    intro l
    rw [LP.baseUpdateGo, LP.baseUpdateGo]
    by_cases h : 0 ≤ t.base a ∧ t.base a < (vc : ℤ)
    · rw [if_pos h, if_pos h, ← List.map_set, ih]
    · rw [if_neg h, if_neg h, ih]

theorem baseUpdate_neg (t : Tableau) (vc : ℕ) (val : ℕ → ℚ) :
    LP.baseUpdate t vc (fun i => -(val i))
      = (LP.baseUpdate t vc val).map (fun x => -x) := by
  rw [LP.baseUpdate, LP.baseUpdate, ← baseUpdateGo_neg]
  have : (List.replicate vc (0 : ℚ)).map (fun x => -x) = List.replicate vc 0 := by
    rw [List.map_replicate, neg_zero]
  rw [this]

theorem unboundedDirectionVec_neg (t : Tableau) (vc j : ℕ) :
    LP.unboundedDirectionVec false t vc j
      = (LP.unboundedDirectionVec true t vc j).map (fun x => -x) := by
  rw [LP.unboundedDirectionVec, LP.unboundedDirectionVec]
  have hfun : (fun i => t.get i j * (if false = true then (1 : ℚ) else -1))
      = fun i => -(t.get i j * (if true = true then (1 : ℚ) else -1)) := by
    funext i
    show t.get i j * -1 = -(t.get i j * 1)
    ring
  rw [hfun, baseUpdate_neg]

theorem LPResult_ext (a b : LPResult) (h1 : a.solutionType = b.solutionType)
    (h2 : a.solution = b.solution) (h3 : a.unboundedDirection = b.unboundedDirection)
    (h4 : a.extremum = b.extremum) : a = b := by
  cases a
  cases b
  simp_all

theorem runSimplexAndClassify_neg (fuel : ℕ) (vc : ℕ) (t : Tableau) :
    LP.runSimplexAndClassify fuel false vc t
      = (LP.runSimplexAndClassify fuel true vc t).map
          (fun r =>
            { r with
              extremum := r.extremum.map ExtQ.neg
              unboundedDirection := r.unboundedDirection.map (fun x => -x) }) := by
  cases hrun : LP.runMinSimplex fuel t with
  | fuelOut => simp [LP.runSimplexAndClassify, hrun]
  | unboundedAt t' j =>
    simp only [LP.runSimplexAndClassify, hrun, Option.map_some']
    refine congrArg some (LPResult_ext _ _ rfl rfl ?_ rfl)
    exact unboundedDirectionVec_neg t' vc j
  | finished t' =>
    simp only [LP.runSimplexAndClassify, hrun]
    by_cases hart : LP.isTableauHaveArtificialVar t' = true
    · rw [if_pos hart, if_pos hart]
      rfl
    · rw [if_neg hart, if_neg hart]
      simp only [Option.map_some']
      refine congrArg some (LPResult_ext _ _ rfl rfl rfl ?_)
      show some (ExtQ.fin (t'.get 0 (t'.cols - 1) * -1))
        = some (ExtQ.neg (ExtQ.fin (t'.get 0 (t'.cols - 1) * 1)))
      rw [ExtQ.neg]
      have hx : t'.get 0 (t'.cols - 1) * -1 = -(t'.get 0 (t'.cols - 1) * 1) := by ring
      rw [hx]

theorem phase2_neg (fuel : ℕ) (obj : Linearform) (vc : ℕ) (t : Tableau) :
    LP.phase2 fuel false obj vc t
      = (LP.phase2 fuel true obj.negate vc t).map
          (fun r =>
            { r with
              extremum := r.extremum.map ExtQ.neg
              unboundedDirection := r.unboundedDirection.map (fun x => -x) }) := by
  rw [LP.phase2, LP.phase2, insertObjFunc_negate, runSimplexAndClassify_neg]

theorem solveFromTableau_neg (fuel : ℕ) (obj : Linearform) (vc : ℕ) (t0 : Tableau) :
    LP.solveFromTableau fuel false obj vc t0
      = (LP.solveFromTableau fuel true obj.negate vc t0).map
          (fun r =>
            { r with
              extremum := r.extremum.map ExtQ.neg
              unboundedDirection := r.unboundedDirection.map (fun x => -x) }) := by
  cases hart : LP.isTableauHaveArtificialVar t0 with
  | true =>
    cases hrun : LP.runMinSimplex fuel (LP.addArtificialRowsToHead t0) with
    | fuelOut => simp [LP.solveFromTableau, hart, hrun]
    | unboundedAt t' j =>
      simp only [LP.solveFromTableau, hart, hrun, if_true, Option.map_some']
      refine congrArg some (LPResult_ext _ _ rfl rfl ?_ rfl)
      exact unboundedDirectionVec_neg t' vc j
    | finished t' =>
      cases hart2 : LP.isTableauHaveArtificialVar t' with
      | true => simp [LP.solveFromTableau, hart, hrun, hart2, ExtQ.neg]
      | false =>
        simp only [LP.solveFromTableau, hart, hrun, hart2, if_true,
          Bool.false_eq_true, if_false]
        exact phase2_neg fuel obj vc (LP.zeroHead t')
  | false =>
    simp only [LP.solveFromTableau, hart, Bool.false_eq_true, if_false]
    exact phase2_neg fuel obj vc t0

theorem lpSolve_neg (fuel : ℕ) (obj : Linearform) (cons : List Constraint)
    (range : List VarRange) :
    LP.lpSolve fuel false obj cons range
      = (LP.lpSolve fuel true obj.negate cons range).map
          (fun r =>
            { r with
              extremum := r.extremum.map ExtQ.neg
              unboundedDirection := r.unboundedDirection.map (fun x => -x) }) := by
  rw [LP.lpSolve, LP.lpSolve]
  exact solveFromTableau_neg fuel obj range.length (LP.initialTableau cons range)

theorem linearform_negate_negate (f : Linearform) : f.negate.negate = f := by
  cases f with
  | mk terms =>
    rw [Linearform.negate, Linearform.negate]
    simp only [List.map_map]
    have : ((fun p : ℕ × ℚ => (p.1, -p.2)) ∘ fun p : ℕ × ℚ => (p.1, -p.2)) = id := by
      funext p
      simp
    rw [this, List.map_id]

theorem ipSolve_neg (lpFuel loopFuel : ℕ) (obj : Linearform)
    (cons : List Constraint) (vc : ℕ) :
    IP.ipSolve lpFuel loopFuel false obj cons vc
      = (IP.ipSolve lpFuel loopFuel true obj.negate cons vc).map
          (fun r => { r with extremum := r.extremum.neg }) := by
  simp only [IP.ipSolve, Bool.false_eq_true, if_false, eq_self_iff_true, if_true]
  cases hroot : IP.mkNode lpFuel obj.negate cons (List.replicate vc (0, none)) with
  | none => simp [hroot]
  | some rootNode =>
    simp only [hroot]
    cases hloop : IP.solveLoop lpFuel obj.negate cons loopFuel
        (IP.checkNode {} rootNode) with
    | none => simp [hloop]
    | some s => simp [hloop]

/-- C6: negating every objective coefficient and switching the sense between
min and max yields the same status and assignment with a negated extremum
(and a negated unboundedness ray at the LP level); equivalently, a max
problem is solved internally as min of the negated objective and the
extremum is re-negated on output, so the user sees the extremum in the
originally requested sense. -/
theorem min_max_negation_law :
    (∀ (fuel : ℕ) (obj : Linearform) (cons : List Constraint)
       (range : List VarRange),
      LP.lpSolve fuel false obj cons range
        = (LP.lpSolve fuel true obj.negate cons range).map
            (fun r =>
              { r with
                extremum := r.extremum.map ExtQ.neg
                unboundedDirection := r.unboundedDirection.map (fun x => -x) })) ∧
    (∀ (lpFuel loopFuel : ℕ) (obj : Linearform) (cons : List Constraint) (vc : ℕ),
      IP.ipSolve lpFuel loopFuel false obj cons vc
        = (IP.ipSolve lpFuel loopFuel true obj.negate cons vc).map
            (fun r => { r with extremum := r.extremum.neg })) ∧
    (∀ (lpFuel loopFuel : ℕ) (obj : Linearform) (cons : List Constraint) (vc : ℕ),
      IP.ipSolve lpFuel loopFuel true obj cons vc
        = (IP.ipSolve lpFuel loopFuel false obj.negate cons vc).map
            (fun r => { r with extremum := r.extremum.neg })) := by
  refine ⟨lpSolve_neg, ipSolve_neg, ?_⟩
  intro lpFuel loopFuel obj cons vc
  have h := ipSolve_neg lpFuel loopFuel obj.negate cons vc
  rw [linearform_negate_negate] at h
  rw [h, Option.map_map]
  have hfun : ((fun (r : IP.IPResult) => { r with extremum := r.extremum.neg })
        ∘ fun (r : IP.IPResult) => { r with extremum := r.extremum.neg })
      = id := by
    funext r
    cases r with
    | mk st sol ext =>
      simp only [Function.comp_apply, id_eq]
      cases ext <;> simp [ExtQ.neg]
  rw [hfun, Option.map_id]
  rfl

/-! ### C2 -/

theorem phase2_not_infeasible (fuel : ℕ) (isMin : Bool) (obj : Linearform)
    (vc : ℕ) (t : Tableau) (res : LPResult)
    (h : LP.phase2 fuel isMin obj vc t = some res) :
    res.solutionType ≠ some LPType.INFEASIBLE := by
  rw [LP.phase2, LP.runSimplexAndClassify] at h
  cases hrun : LP.runMinSimplex fuel
      (LP.handleNonZeroHead (LP.insertObjFuncToTableau isMin obj t)) with
  | fuelOut =>
    simp only [hrun] at h
    exact Option.noConfusion h
  | unboundedAt t' j =>
    simp only [hrun] at h
    cases h
    intro hc
    cases hc
  | finished t' =>
    simp only [hrun] at h
    cases hart : LP.isTableauHaveArtificialVar t' with
    | true =>
      simp only [hart, if_true] at h
      cases h
      intro hc
      cases hc
    | false =>
      simp only [hart, Bool.false_eq_true, if_false] at h
      cases h
      intro hc
      cases hc

/-- C2 (amended): the solve returns INFEASIBLE exactly when the phase-1 run
is needed (some row starts with an artificial basis) and its driver either
finishes with an artificial still basic or aborts as unbounded; whenever
INFEASIBLE is returned the extremum is NaN; and when the phase-1 driver
finished normally, the returned solution vector is empty (length 0) — not a
length-`n` zero vector as claimed. -/
theorem lp_infeasible_characterization :
    ∀ (fuel : ℕ) (isMin : Bool) (obj : Linearform) (cons : List Constraint)
      (range : List VarRange) (res : LPResult),
      LP.lpSolve fuel isMin obj cons range = some res →
      ((res.solutionType = some LPType.INFEASIBLE ↔
         LP.isTableauHaveArtificialVar (LP.initialTableau cons range) = true ∧
         (match LP.runMinSimplex fuel
             (LP.addArtificialRowsToHead (LP.initialTableau cons range)) with
          | .finished t1 => LP.isTableauHaveArtificialVar t1 = true
          | .unboundedAt _ _ => True
          | .fuelOut => False)) ∧
       (res.solutionType = some LPType.INFEASIBLE → res.extremum = some ExtQ.nan) ∧
       (res.solutionType = some LPType.INFEASIBLE →
         (match LP.runMinSimplex fuel
             (LP.addArtificialRowsToHead (LP.initialTableau cons range)) with
          | .finished _ => res.solution = []
          | _ => True))) := by
  intro fuel isMin obj cons range res h
  rw [LP.lpSolve, LP.solveFromTableau] at h
  cases hart : LP.isTableauHaveArtificialVar (LP.initialTableau cons range) with
  | false =>
    simp only [hart, Bool.false_eq_true, if_false] at h
    have hnot := phase2_not_infeasible _ _ _ _ _ _ h
    refine ⟨⟨fun ht => absurd ht hnot, ?_⟩, fun ht => absurd ht hnot,
      fun ht => absurd ht hnot⟩
    rintro ⟨h1, -⟩
    cases h1
  | true =>
    simp only [hart, if_true] at h
    cases hrun : LP.runMinSimplex fuel
        (LP.addArtificialRowsToHead (LP.initialTableau cons range)) with
    | fuelOut =>
      simp only [hrun] at h
      exact Option.noConfusion h
    | unboundedAt t' j =>
      simp only [hrun] at h
      cases h
      exact ⟨⟨fun _ => ⟨rfl, trivial⟩, fun _ => rfl⟩, fun _ => rfl, fun _ => trivial⟩
    | finished t1 =>
      simp only [hrun] at h
      by_cases hart2 : LP.isTableauHaveArtificialVar t1 = true
      · simp only [hart2, if_true] at h
        cases h
        exact ⟨⟨fun _ => ⟨rfl, hart2⟩, fun _ => rfl⟩, fun _ => rfl, fun _ => rfl⟩
      · rw [if_neg hart2] at h
        have hnot := phase2_not_infeasible _ _ _ _ _ _ h
        refine ⟨⟨fun ht => absurd ht hnot, ?_⟩, fun ht => absurd ht hnot,
          fun ht => absurd ht hnot⟩
        rintro ⟨-, h2⟩
        exact absurd h2 hart2

/-- C2 witness: `lp_infeasible_characterization` at LP test 1 of
`Tester::lpTests` (the infeasible instance), giving extremum NaN. -/
theorem lp_infeasible_characterization_witness :
    ∃ (res : LPResult),
      LP.lpSolve 40 false lpTestObj lpTest1Cons lpTestRange = some res ∧
        res.extremum = some ExtQ.nan := by
  have hrun : LP.lpSolve 40 false lpTestObj lpTest1Cons lpTestRange
      = some { solutionType := some LPType.INFEASIBLE, solution := [],
               unboundedDirection := [], extremum := some ExtQ.nan } := by
    decide
  have h := lp_infeasible_characterization 40 false lpTestObj lpTest1Cons
    lpTestRange _ hrun
  exact ⟨_, hrun, h.2.1 rfl⟩

/-- C2 counterexample: the infeasible LP test 1 of `Tester::lpTests` returns
INFEASIBLE with an *empty* solution vector (length 0), not a length-`n`
all-zero vector (`n = 2` here). -/
theorem lp_infeasible_empty_solution_cex :
    (LP.lpSolve 40 false lpTestObj lpTest1Cons lpTestRange).map
        (fun r => (r.solutionType, r.solution))
      = some (some LPType.INFEASIBLE, ([] : List ℚ)) ∧
    lpTestRange.length = 2 := by
  constructor
  · decide
  · rfl

/-! ### C8 -/

set_option maxRecDepth 8000 in
set_option maxHeartbeats 2000000 in
/-- C8 (amended): the concrete LP `max x + y` s.t. `4x + 3y ≤ 17`,
`2x − 5y ≥ −9`, `x + 10y ≥ 25`, `x, y ≥ 0` (test 0 of `Tester::lpTests`)
returns BOUNDED with extremum `64/13 ≈ 4.9231` (not `≈ 5.6538`) at the
strictly positive optimum `(29/13, 35/13)`. -/
theorem lp_test0_bounded_result :
    LP.lpSolve 40 false lpTestObj lpTest0Cons lpTestRange
      = some { solutionType := some LPType.BOUNDED, solution := [29/13, 35/13],
               unboundedDirection := [], extremum := some (ExtQ.fin (64/13)) } ∧
    (0 : ℚ) < 29 / 13 ∧ (0 : ℚ) < 35 / 13 ∧
    |(64 : ℚ) / 13 - 49231 / 10000| < 1 / 10 ^ 4 := by
  refine ⟨by decide, by norm_num, by norm_num, ?_⟩
  rw [abs_lt]
  constructor <;> norm_num

set_option maxRecDepth 8000 in
set_option maxHeartbeats 2000000 in
/-- C8 counterexample: the extremum actually returned on that input is
`64/13 ≈ 4.9231`, which is not within `0.5` of the claimed `5.6538`. -/
theorem lp_test0_extremum_cex :
    (LP.lpSolve 40 false lpTestObj lpTest0Cons lpTestRange).map
        (fun r => r.extremum) = some (some (ExtQ.fin (64 / 13))) ∧
    ¬ |(64 : ℚ) / 13 - 56538 / 10000| < 1 / 2 := by
  constructor
  · decide
  · rw [abs_lt]
    intro h
    have := h.1
    norm_num at this

/-! ### C7 -/

theorem ExtQ_blt_irrefl (x : ExtQ) : ExtQ.blt x x = false := by
  cases x <;> simp [ExtQ.blt]

theorem ExtQ_blt_total {x y : ExtQ} (hx : x ≠ ExtQ.nan) (hy : y ≠ ExtQ.nan)
    (h : ExtQ.blt x y = false) : y = x ∨ ExtQ.blt y x = true := by
  cases x with
  | nan => exact absurd rfl hx
  | inf =>
    cases y with
    | nan => exact absurd rfl hy
    | inf => exact Or.inl rfl
    | ninf => exact Or.inr rfl
    | fin b => exact Or.inr rfl
  | ninf =>
    cases y with
    | nan => exact absurd rfl hy
    | ninf => exact Or.inl rfl
    | inf => cases h
    | fin b => cases h
  | fin a =>
    cases y with
    | nan => exact absurd rfl hy
    | inf => cases h
    | ninf => exact Or.inr rfl
    | fin b =>
      have hle : b ≤ a := not_lt.1 (of_decide_eq_false h)
      rcases eq_or_lt_of_le hle with heq | hlt
      · exact Or.inl (congrArg ExtQ.fin heq)
      · exact Or.inr (decide_eq_true hlt)

theorem heapInv_root_min (q : List Node) (hinv : IP.heapInv q)
    (hnn : ∀ n ∈ q, n.lowerBound ≠ ExtQ.nan) :
    ∀ i, i < q.length →
      ExtQ.blt (q.getD i default).lowerBound (q.getD 0 default).lowerBound = false := by
  intro i
  induction i using Nat.strong_induction_on with
  | _ i ih =>
    intro hi
    rcases Nat.eq_zero_or_pos i with rfl | hpos
    · exact ExtQ_blt_irrefl _
    · have hp : (i - 1) / 2 < i :=
        Nat.lt_of_le_of_lt (Nat.div_le_self _ _) (by omega)
      have hparent := ih ((i - 1) / 2) hp (lt_trans hp hi)
      have hchild := hinv i hpos hi
      rw [IP.nodeCmp] at hchild
      by_contra hcon
      rw [Bool.not_eq_false] at hcon
      have hmem : ∀ k, k < q.length → (q.getD k default).lowerBound ≠ ExtQ.nan := by
        intro k hk
        have : q.getD k default = q[k] := by
          rw [List.getD_eq_getElem?_getD, List.getElem?_eq_getElem hk, Option.getD_some]
        rw [this]
        exact hnn _ (List.getElem_mem hk)
      have h1 := hmem i hi
      have h2 := hmem ((i - 1) / 2) (lt_trans hp hi)
      rcases ExtQ_blt_total h1 h2 hchild with heq | hlt
      · rw [← heq] at hcon
        rw [hparent] at hcon
        cases hcon
      · have hx := ExtQ_blt_trans hlt hcon
        rw [hparent] at hx
        cases hx

/-- C7 (amended): every pop from the node queue returns a node whose lower
bound is minimal among all queued nodes (no queued node compares strictly
below it), provided the queue satisfies the binary-heap invariant that
pushes maintain and no queued bound is NaN.  Ties between equal lower bounds
are broken by heap order, *not* by insertion order. -/
theorem ip_queue_pop_min (q : List Node) (hinv : IP.heapInv q)
    (hnn : ∀ n ∈ q, n.lowerBound ≠ ExtQ.nan)
    (r : Node) (q2 : List Node) (hpop : IP.heapPop q = some (r, q2)) :
    ∀ n ∈ q, ExtQ.blt n.lowerBound r.lowerBound = false := by
  cases q with
  | nil => cases hpop
  | cons a tail =>
    have hr : a = r := by
      rw [IP.heapPop] at hpop
      by_cases hlen : 1 < (a :: tail).length
      · rw [if_pos hlen] at hpop
        exact congrArg Prod.fst (Option.some.inj hpop)
      · rw [if_neg hlen] at hpop
        exact congrArg Prod.fst (Option.some.inj hpop)
    intro n hn
    obtain ⟨i, hlt, hget⟩ := List.mem_iff_getElem.1 hn
    have hgetD : (a :: tail).getD i default = n := by
      rw [List.getD_eq_getElem?_getD, List.getElem?_eq_getElem hlt, Option.getD_some,
        hget]
    have h0 : (a :: tail).getD 0 default = a := rfl
    have := heapInv_root_min (a :: tail) hinv hnn i hlt
    rw [hgetD, h0, hr] at this
    exact this

/-- C7 witness: `ip_queue_pop_min` on the concrete queue built by four
pushes; the pop returns a node below no queued node. -/
theorem ip_queue_pop_min_witness :
    ExtQ.blt (tieNode 2).lowerBound (tieNode 1).lowerBound = false := by
  have h := ip_queue_pop_min tieQueue
    (by
      intro i h1 h2
      have h2' : i < 4 := h2
      interval_cases i <;> decide)
    (by decide)
    (tieNode 1) [tieNode 3, tieNode 2, tieNode 4]
    (by decide)
  exact h (tieNode 2) (by decide)

/-- C7 counterexample: pushing four nodes with equal lower bounds in the
order 1, 2, 3, 4 and popping twice returns the first and then the *third*
inserted node — insertion order does not break ties. -/
theorem ip_queue_tie_order_cex :
    (IP.heapPop tieQueue).map (fun p => p.1) = some (tieNode 1) ∧
    ((IP.heapPop tieQueue).bind (fun p => IP.heapPop p.2)).map (fun p => p.1)
      = some (tieNode 3) ∧
    tieNode 3 ≠ tieNode 2 ∧
    (tieNode 2).lowerBound = (tieNode 3).lowerBound ∧
    (∀ n ∈ tieQueue, n.lowerBound = ExtQ.fin 1) := by
  refine ⟨by decide, by decide, by decide, by decide, by decide⟩
